import Mathlib

/-!
Verification development for the debunker repository.

The repository consists of a React frontend (under `src/frontend` and the
unnamed parts) and a specification of a narrative-clustering core.  The
frontend components that decide claims (Home.tsx `sortedNarratives`,
AuthGuard.tsx, Sidebar `fetchStats`, Dashboard `fetchDashboardData`) are
embedded directly from the TypeScript source.  The clustering core
(Clustering Engine, Similarity Index, Narrative Aggregator) has no
implementation under `src/` — the source delegates clustering to an external
library — so it is modelled from the specification, as marked on each
definition.
-/

namespace Debunker

/-! ### Clustering core: data model -/

/-- Modelled from the spec: embeddings are fixed-length numeric vectors
(the clustering core is not implemented under `src/`); components are
modelled as rationals. -/
abbrev Embedding := List ℚ

/-- Modelled from the spec: a ContentItem is an immutable record with
`id` (unique), `platform`, `text`, `embedding` (possibly missing, hence
`Option`), `timestamp`, `url`, `engagement`. -/
structure ContentItem where
  id : ℕ
  platform : String
  text : String
  embedding : Option Embedding
  timestamp : ℤ
  url : String
  engagement : ℕ
deriving DecidableEq

/-- Modelled from the spec: a NarrativeCluster is a mutable aggregate with
`id`, nullable `summary`, non-empty `member_ids`, `centroid`, `first_seen`,
`last_seen` and `source_count`.  The spec leaves the `source_count` policy
to be fixed by the implementation; this model fixes
`source_count = member_ids.card`, consistent with the spec's end-to-end
scenario (counts 2 and 1 for clusters of sizes 2 and 1). -/
structure NarrativeCluster where
  id : ℕ
  summary : Option String
  member_ids : Finset ℕ
  centroid : Embedding
  first_seen : ℤ
  last_seen : ℤ
  source_count : ℕ
deriving DecidableEq

/-- Modelled from the spec: engine configuration — the embedding
dimensionality, the similarity threshold, and the similarity measure
("cosine similarity (or equivalent normalized distance)"); the measure is a
parameter of the model. -/
structure Config where
  dim : ℕ
  threshold : ℚ
  sim : Embedding → Embedding → ℚ

/-- Modelled from the spec: error kinds of the clustering core. -/
inductive ClusterError where
  | invalidEmbeddingError
  | clusterNotFoundError
deriving DecidableEq

/-! ### Similarity Index -/

/-- Modelled from the spec: the Similarity Index is a set of
(cluster id, centroid) pairs. -/
abbrev SimilarityIndex := List (ℕ × Embedding)

/-- Modelled from the spec: `upsert(clusterId, centroid)` inserts or
replaces the centroid for a cluster. -/
def SimilarityIndex.upsert (idx : SimilarityIndex) (cid : ℕ) (c : Embedding) :
    SimilarityIndex :=
  idx.filter (fun e => e.1 != cid) ++ [(cid, c)]

/-- Modelled from the spec: `remove(clusterId)` deletes an entry. -/
def SimilarityIndex.remove (idx : SimilarityIndex) (cid : ℕ) : SimilarityIndex :=
  idx.filter (fun e => e.1 != cid)

/-- Modelled from the spec: choose the better of two scored candidates —
higher score wins, and ties (equal scores) go to the lower cluster id, the
spec's deterministic tie-break rule. -/
def betterMatch (a b : ℕ × ℚ) : ℕ × ℚ :=
  if a.2 < b.2 ∨ (a.2 = b.2 ∧ b.1 < a.1) then b else a

/-- Modelled from the spec: `queryNearest(embedding)` returns the single
best match `(clusterId, score)`, or `none` if the index is empty; a linear
scan, exactly reproducible. -/
def SimilarityIndex.queryNearest (sim : Embedding → Embedding → ℚ)
    (idx : SimilarityIndex) (q : Embedding) : Option (ℕ × ℚ) :=
  match idx.map (fun e => (e.1, sim e.2 q)) with
  | [] => none
  | x :: xs => some (xs.foldl betterMatch x)

/-! ### Clustering Engine -/

/-- Componentwise scaling of an embedding. -/
def scaleVec (q : ℚ) (v : Embedding) : Embedding := v.map (fun x => q * x)

/-- Componentwise addition of embeddings. -/
def addVec (a b : Embedding) : Embedding := List.zipWith (· + ·) a b

/-- Modelled from the spec: the incremental-mean centroid update — the new
centroid is the mean of all member embeddings, computed incrementally from
the old centroid, the old member count and the joining embedding. -/
def incrementalMean (centroid : Embedding) (n : ℕ) (emb : Embedding) : Embedding :=
  scaleVec (1 / ((n : ℚ) + 1)) (addVec (scaleVec (n : ℚ) centroid) emb)

/-- Modelled from the spec: engine state — the authoritative cluster
records plus a counter providing fresh cluster ids.  The Similarity Index
is the derived read-mostly cache `EngineState.index`. -/
structure EngineState where
  clusters : List NarrativeCluster
  nextId : ℕ
deriving DecidableEq

/-- The empty clustering state. -/
def EngineState.empty : EngineState := ⟨[], 0⟩

/-- Modelled from the spec: the Similarity Index entries are
(cluster_id, centroid) pairs kept in sync with the authoritative
NarrativeCluster records; here the cache is derived directly from them. -/
def EngineState.index (s : EngineState) : SimilarityIndex :=
  s.clusters.map (fun c => (c.id, c.centroid))

/-- Modelled from the spec: joining an item to a cluster — add to
`member_ids`, recompute `centroid` as the incremental mean, update
`first_seen`/`last_seen` via min/max with the item timestamp, and
recompute `source_count` under the fixed policy. -/
def joinItem (c : NarrativeCluster) (item : ContentItem) (emb : Embedding) :
    NarrativeCluster :=
  { c with
    member_ids := insert item.id c.member_ids
    centroid := incrementalMean c.centroid c.member_ids.card emb
    first_seen := min c.first_seen item.timestamp
    last_seen := max c.last_seen item.timestamp
    source_count := (insert item.id c.member_ids).card }

/-- Modelled from the spec: a freshly created cluster —
`member_ids = {item.id}`, `centroid = item.embedding`,
`first_seen = last_seen = item.timestamp`, `source_count = 1`. -/
def freshCluster (nid : ℕ) (item : ContentItem) (emb : Embedding) :
    NarrativeCluster :=
  { id := nid
    summary := none
    member_ids := {item.id}
    centroid := emb
    first_seen := item.timestamp
    last_seen := item.timestamp
    source_count := 1 }

/-- Modelled from the spec: `assign(item)` — reject the item with
`InvalidEmbeddingError` when the embedding is missing or not of the
configured dimensionality; otherwise query the Similarity Index for the
nearest centroid and either join that cluster (best score `>= threshold`)
or create a new cluster. -/
def assign (cfg : Config) (s : EngineState) (item : ContentItem) :
    Except ClusterError (ℕ × EngineState) :=
  match item.embedding with
  | none => .error .invalidEmbeddingError
  | some emb =>
    if emb.length = cfg.dim then
      match SimilarityIndex.queryNearest cfg.sim s.index emb with
      | some (cid, score) =>
        if cfg.threshold ≤ score then
          .ok (cid,
            { s with clusters :=
                s.clusters.map (fun c => if c.id = cid then joinItem c item emb else c) })
        else
          .ok (s.nextId,
            { clusters := s.clusters ++ [freshCluster s.nextId item emb]
              nextId := s.nextId + 1 })
      | none =>
        .ok (s.nextId,
          { clusters := s.clusters ++ [freshCluster s.nextId item emb]
            nextId := s.nextId + 1 })
    else .error .invalidEmbeddingError

/-- Modelled from the spec: the cluster resulting from a merge —
`member_ids` is the union, `first_seen` the min, `last_seen` the max,
the centroid is recomputed over the full unioned membership (the
member-count-weighted mean of the two centroids), and `source_count`
recomputed under the fixed policy. -/
def mergedCluster (survivor retired : NarrativeCluster) : NarrativeCluster :=
  { survivor with
    member_ids := survivor.member_ids ∪ retired.member_ids
    centroid :=
      scaleVec (1 / ((survivor.member_ids.card : ℚ) + (retired.member_ids.card : ℚ)))
        (addVec (scaleVec (survivor.member_ids.card : ℚ) survivor.centroid)
          (scaleVec (retired.member_ids.card : ℚ) retired.centroid))
    first_seen := min survivor.first_seen retired.first_seen
    last_seen := max survivor.last_seen retired.last_seen
    source_count := (survivor.member_ids ∪ retired.member_ids).card }

/-- Modelled from the spec: `mergeClusters(a, b)` fails with
`ClusterNotFoundError` when either id no longer exists; otherwise the
cluster with the lower id survives, holding the merged fields, and the
other is retired.  The spec leaves `a = b` unspecified; merging a cluster
with itself leaves the state unchanged. -/
def mergeClusters (s : EngineState) (a b : ℕ) : Except ClusterError EngineState :=
  match s.clusters.find? (fun c => c.id == a), s.clusters.find? (fun c => c.id == b) with
  | some ca, some cb =>
    if a = b then .ok s
    else
      let survivor := if a ≤ b then ca else cb
      let retired := if a ≤ b then cb else ca
      let kept := s.clusters.filter (fun c => c.id != retired.id)
      .ok { s with clusters :=
              kept.map (fun c =>
                if c.id = survivor.id then mergedCluster survivor retired else c) }
  | _, _ => .error .clusterNotFoundError

/-! ### Engine operation sequences -/

/-- Modelled from the spec: the state-mutating operations of the
Clustering Engine. -/
inductive EngineOp where
  | assignItem (item : ContentItem)
  | mergePair (a b : ℕ)

/-- Modelled from the spec: one engine call; a failing call is surfaced to
the caller and performs no mutation, so the state is unchanged.  The second
component accumulates the ids of successfully assigned items. -/
def stepOp (cfg : Config) (p : EngineState × Finset ℕ) (op : EngineOp) :
    EngineState × Finset ℕ :=
  match op with
  | .assignItem item =>
    match assign cfg p.1 item with
    | .ok q => (q.2, insert item.id p.2)
    | .error _ => p
  | .mergePair a b =>
    match mergeClusters p.1 a b with
    | .ok s => (s, p.2)
    | .error _ => p

/-- Modelled from the spec: run a sequence of engine operations starting
from the empty clustering state. -/
def runOps (cfg : Config) (ops : List EngineOp) : EngineState × Finset ℕ :=
  ops.foldl (stepOp cfg) (EngineState.empty, ∅)

/-- The ids of the items carried by the assign operations of a sequence. -/
def assignIds : List EngineOp → List ℕ
  | [] => []
  | .assignItem item :: ops => item.id :: assignIds ops
  | .mergePair _ _ :: ops => assignIds ops

/-- Modelled from the spec: process a fixed sequence of items with `assign`
starting from the empty clustering state. -/
def runAssigns (cfg : Config) (items : List ContentItem) : EngineState :=
  (runOps cfg (items.map EngineOp.assignItem)).1

/-- The mapping from cluster ids to their member sets. -/
def clusterMembership (s : EngineState) : List (ℕ × Finset ℕ) :=
  s.clusters.map (fun c => (c.id, c.member_ids))

/-- Modelled from the spec: the bounds invariant — every cluster satisfies
`first_seen <= last_seen`. -/
def boundsInv (s : EngineState) : Prop :=
  ∀ c ∈ s.clusters, c.first_seen ≤ c.last_seen

/-- Modelled from the spec: ownership well-formedness of an engine state
together with the set of assigned item ids — cluster ids are distinct and
below `nextId`, member sets of distinct clusters are disjoint, and the
assigned ids are exactly the ids occurring in some member set. -/
def ownershipInv (s : EngineState) (assigned : Finset ℕ) : Prop :=
  (s.clusters.map NarrativeCluster.id).Nodup ∧
  (∀ c ∈ s.clusters, ∀ d ∈ s.clusters, c ≠ d → Disjoint c.member_ids d.member_ids) ∧
  (∀ i, i ∈ assigned ↔ ∃ c ∈ s.clusters, i ∈ c.member_ids) ∧
  (∀ c ∈ s.clusters, c.id < s.nextId)

/-! ### Frontend: Home.tsx narrative list -/

/-- The narrative summary record fetched by Home.tsx (`type Narrative`):
`id`, `summary`, `source_count`, `last_seen`, `first_seen`.  The
`last_seen` field is modelled as the integer `new Date(...).getTime()`
yields for it. -/
structure Narrative where
  id : ℕ
  summary : String
  source_count : ℕ
  last_seen : ℤ
  first_seen : ℤ
deriving DecidableEq

/-- The two values of Home.tsx's `sortBy` state: 'recent' | 'sources'. -/
inductive SortBy where
  | recent
  | sources
deriving DecidableEq

/-- Home.tsx's sort comparator: for 'recent' it returns
`getTime(b.last_seen) - getTime(a.last_seen)`, for 'sources' it returns
`b.source_count - a.source_count`. -/
def narrativeCompare (sortBy : SortBy) (a b : Narrative) : ℤ :=
  match sortBy with
  | .recent => b.last_seen - a.last_seen
  | .sources => (b.source_count : ℤ) - (a.source_count : ℤ)

/-- Home.tsx `sortedNarratives`: `[...narratives].sort(comparator)`.
JavaScript `Array.prototype.sort` is a stable sort consistent with the
comparator; it is modelled as an insertion sort under the relation
"comparator value ≤ 0". -/
def sortedNarratives (sortBy : SortBy) (narratives : List Narrative) :
    List Narrative :=
  List.insertionSort (fun a b => narrativeCompare sortBy a b ≤ 0) narratives

/-! ### Frontend: AuthGuard.tsx -/

/-- The outcome of rendering a guarded route: a redirect or the children. -/
inductive RenderedView where
  | redirect (path : String)
  | children
deriving DecidableEq

/-- JavaScript falsiness of the auth store token (the `!token` test in
AuthGuard.tsx): a `string | null` token is falsy when it is null or the
empty string. -/
def tokenFalsy (token : Option String) : Bool :=
  match token with
  | none => true
  | some s => s == ""

/-- AuthGuard.tsx: when the token is falsy the component returns
`<Navigate to="/login" replace />`, otherwise it renders exactly its
children. -/
def AuthGuard (token : Option String) : RenderedView :=
  if tokenFalsy token then .redirect "/login" else .children

/-! ### Frontend: Sidebar and Dashboard platform statistics -/

/-- Sidebar `fetchStats` / Dashboard `fetchDashboardData`: the total source
count is the sum of `source_count` over the fetched narratives. -/
def totalSources (narratives : List Narrative) : ℕ :=
  (narratives.map Narrative.source_count).sum

/-- Sidebar.tsx `fetchStats` platform distribution: fixed fractions of the
total source count; `Math.floor(totalSources * q)` is modelled as the
exact rational floor. -/
def fetchStatsPlatforms (narratives : List Narrative) : List (String × ℤ) :=
  [("News Media", ⌊(totalSources narratives : ℚ) * 0.6⌋),
   ("Social Media", ⌊(totalSources narratives : ℚ) * 0.3⌋),
   ("Video Content", ⌊(totalSources narratives : ℚ) * 0.1⌋)]

/-- Dashboard `fetchDashboardData` platform distribution: six fixed
fractions of the total source count. -/
def fetchDashboardPlatforms (narratives : List Narrative) : List (String × ℤ) :=
  [("News Media", ⌊(totalSources narratives : ℚ) * 0.55⌋),
   ("Jerusalem Post", ⌊(totalSources narratives : ℚ) * 0.15⌋),
   ("Al Jazeera", ⌊(totalSources narratives : ℚ) * 0.12⌋),
   ("YouTube", ⌊(totalSources narratives : ℚ) * 0.08⌋),
   ("Reddit", ⌊(totalSources narratives : ℚ) * 0.06⌋),
   ("Twitter", ⌊(totalSources narratives : ℚ) * 0.04⌋)]

/-! ### Supporting lemmas -/

theorem betterMatch_cases (a b : ℕ × ℚ) : betterMatch a b = a ∨ betterMatch a b = b := by
  unfold betterMatch
  split
  · exact Or.inr rfl
  · exact Or.inl rfl

theorem foldl_betterMatch_mem (xs : List (ℕ × ℚ)) :
    ∀ x : ℕ × ℚ, xs.foldl betterMatch x = x ∨ xs.foldl betterMatch x ∈ xs := by
  induction xs with
  | nil => intro x; exact Or.inl rfl
  | cons y ys ih =>
    intro x
    have hfold : (y :: ys).foldl betterMatch x = ys.foldl betterMatch (betterMatch x y) := rfl
    rcases ih (betterMatch x y) with h | h
    · rcases betterMatch_cases x y with hb | hb
      · exact Or.inl (by rw [hfold, h, hb])
      · exact Or.inr (by rw [hfold, h, hb]; exact List.mem_cons_self y ys)
    · exact Or.inr (by rw [hfold]; exact List.mem_cons_of_mem _ h)

theorem queryNearest_mem {sim : Embedding → Embedding → ℚ} {idx : SimilarityIndex}
    {q : Embedding} {cid : ℕ} {score : ℚ}
    (h : SimilarityIndex.queryNearest sim idx q = some (cid, score)) :
    ∃ e ∈ idx, e.1 = cid ∧ sim e.2 q = score := by
  unfold SimilarityIndex.queryNearest at h
  rcases hm : idx.map (fun e => (e.1, sim e.2 q)) with _ | ⟨x, xs⟩
  · rw [hm] at h; simp at h
  · rw [hm] at h
    simp only [Option.some.injEq] at h
    have hmem : xs.foldl betterMatch x ∈ idx.map (fun e => (e.1, sim e.2 q)) := by
      rcases foldl_betterMatch_mem xs x with h' | h'

      · rw [hm, h']; exact List.mem_cons_self x xs
      · rw [hm]; exact List.mem_cons_of_mem _ h'
    rw [h] at hmem
    rcases List.mem_map.mp hmem with ⟨e, he, heq⟩
    exact ⟨e, he, congrArg Prod.fst heq, congrArg Prod.snd heq⟩

theorem index_mem {s : EngineState} {e : ℕ × Embedding} (h : e ∈ s.index) :
    ∃ c ∈ s.clusters, c.id = e.1 ∧ c.centroid = e.2 := by
  rcases List.mem_map.mp h with ⟨c, hc, hce⟩
  exact ⟨c, hc, congrArg Prod.fst hce.symm |>.symm, congrArg Prod.snd hce.symm |>.symm⟩

/-! ### Claim C8: idempotence of Similarity Index upsert -/

theorem upsert_upsert (idx : SimilarityIndex) (cid : ℕ) (c : Embedding) :
    SimilarityIndex.upsert (SimilarityIndex.upsert idx cid c) cid c =
      SimilarityIndex.upsert idx cid c := by
  unfold SimilarityIndex.upsert
  rw [List.filter_append]
  simp [List.filter_filter]

/-- C8: calling `SimilarityIndex.upsert` twice in succession with the same
cluster id and centroid produces an index under which every `queryNearest`
call returns the same result as after calling `upsert` once — upsert is
idempotent. -/
theorem upsert_idempotent (sim : Embedding → Embedding → ℚ) (idx : SimilarityIndex)
    (cid : ℕ) (c : Embedding) (q : Embedding) :
    SimilarityIndex.queryNearest sim
        (SimilarityIndex.upsert (SimilarityIndex.upsert idx cid c) cid c) q =
      SimilarityIndex.queryNearest sim (SimilarityIndex.upsert idx cid c) q := by
  rw [upsert_upsert]

/-! ### Claim C5: determinism of assign -/

/-- C5: for a fixed sequence of items and a fixed configuration, two
independent runs of `assign` over the whole sequence from the empty state
produce identical states, hence identical cluster membership and an
identical mapping from cluster ids to member sets. -/
theorem assign_deterministic (cfg : Config) (items : List ContentItem)
    (s₁ s₂ : EngineState)
    (h₁ : s₁ = runAssigns cfg items) (h₂ : s₂ = runAssigns cfg items) :
    s₁ = s₂ ∧ clusterMembership s₁ = clusterMembership s₂ := by
  subst h₁; subst h₂; exact ⟨rfl, rfl⟩

/-- Witness for C5 at a concrete configuration and item sequence. -/
theorem assign_deterministic_witness :
    clusterMembership (runAssigns ⟨2, 1, fun _ _ => 0⟩ []) =
      clusterMembership (runAssigns ⟨2, 1, fun _ _ => 0⟩ []) :=
  (assign_deterministic ⟨2, 1, fun _ _ => 0⟩ [] _ _ rfl rfl).2

/-! ### Claim C7: the two sort keys of the narrative list -/

/-- C7: the list view ranks cluster summaries under exactly two sort keys;
the recency key yields a reordering of the fetched narratives that is
ordered by `last_seen` descending, and the source-count key one ordered by
`source_count` descending. -/
theorem sortedNarratives_ranking (narratives : List Narrative) :
    (∀ sortBy : SortBy, sortBy = SortBy.recent ∨ sortBy = SortBy.sources) ∧
    (sortedNarratives SortBy.recent narratives).Perm narratives ∧
    (sortedNarratives SortBy.recent narratives).Pairwise
      (fun a b => b.last_seen ≤ a.last_seen) ∧
    (sortedNarratives SortBy.sources narratives).Perm narratives ∧
    (sortedNarratives SortBy.sources narratives).Pairwise
      (fun a b => b.source_count ≤ a.source_count) := by
  refine ⟨fun sortBy => by cases sortBy <;> simp, ?_, ?_, ?_, ?_⟩
  · exact List.perm_insertionSort _ _
  · have htot : IsTotal Narrative
        (fun a b => narrativeCompare SortBy.recent a b ≤ 0) := by
      constructor; intro a b; simp only [narrativeCompare]; omega
    have htr : IsTrans Narrative
        (fun a b => narrativeCompare SortBy.recent a b ≤ 0) := by
      constructor; intro a b c; simp only [narrativeCompare]; omega
    have hs := @List.sorted_insertionSort Narrative
      (fun a b => narrativeCompare SortBy.recent a b ≤ 0) _ htot htr narratives
    refine List.Pairwise.imp ?_ hs
    intro a b h
    simp only [narrativeCompare] at h
    omega
  · exact List.perm_insertionSort _ _
  · have htot : IsTotal Narrative
        (fun a b => narrativeCompare SortBy.sources a b ≤ 0) := by
      constructor; intro a b; simp only [narrativeCompare]; omega
    have htr : IsTrans Narrative
        (fun a b => narrativeCompare SortBy.sources a b ≤ 0) := by
      constructor; intro a b c; simp only [narrativeCompare]; omega
    have hs := @List.sorted_insertionSort Narrative
      (fun a b => narrativeCompare SortBy.sources a b ≤ 0) _ htot htr narratives
    refine List.Pairwise.imp ?_ hs
    intro a b h
    simp only [narrativeCompare] at h
    omega

/-! ### Claim C9: the AuthGuard component -/

/-- C9 counterexample: the empty-string token is not null, yet AuthGuard
does not render its children for it (JavaScript `!token` treats the empty
string as falsy), so "if the token is non-null it renders exactly its
children" fails at `some ""`. -/
theorem authGuard_empty_token_counterexample :
    (some "" : Option String) ≠ none ∧
    AuthGuard (some "") ≠ RenderedView.children ∧
    AuthGuard (some "") = RenderedView.redirect "/login" := by
  refine ⟨by simp, ?_, rfl⟩
  intro h
  simp [AuthGuard, tokenFalsy] at h

/-- C9 (amended): if the stored token is null or the empty string the
component returns a redirect to /login and does not render its children;
otherwise it renders exactly its children.  Consequently a route wrapped in
AuthGuard is never rendered without a non-empty stored token. -/
theorem authGuard_renders (token : Option String) :
    (tokenFalsy token = true → AuthGuard token = RenderedView.redirect "/login") ∧
    (tokenFalsy token = false → AuthGuard token = RenderedView.children) ∧
    (AuthGuard token = RenderedView.children →
      ∃ s : String, token = some s ∧ s ≠ "") := by
  refine ⟨fun h => by simp [AuthGuard, h], fun h => by simp [AuthGuard, h], fun h => ?_⟩
  match htok : token with
  | none => simp [AuthGuard, tokenFalsy] at h
  | some s =>
    refine ⟨s, rfl, fun hs => ?_⟩
    rw [hs] at h
    simp [AuthGuard, tokenFalsy] at h

/-- Witness for C9 (amended): a non-empty token renders the children, a
null token redirects to /login. -/
theorem authGuard_renders_witness :
    AuthGuard (some "tok") = RenderedView.children ∧
    AuthGuard none = RenderedView.redirect "/login" :=
  ⟨(authGuard_renders (some "tok")).2.1 rfl, (authGuard_renders none).1 rfl⟩

/-! ### Claim C10: platform counts are fixed proportions of the total -/

/-- C10: with `t` the total source count, the sidebar platform counts are
`⌊0.6·t⌋, ⌊0.3·t⌋, ⌊0.1·t⌋` and the dashboard ones
`⌊0.55·t⌋, ⌊0.15·t⌋, ⌊0.12·t⌋, ⌊0.08·t⌋, ⌊0.06·t⌋, ⌊0.04·t⌋` — functions
of the total alone, not per-platform measurements — and in each view the
counts sum to at most `t`. -/
theorem platform_counts_fixed_fractions (narratives : List Narrative) :
    ((fetchStatsPlatforms narratives).map Prod.snd =
        [⌊(0.6 : ℚ) * (totalSources narratives : ℚ)⌋,
         ⌊(0.3 : ℚ) * (totalSources narratives : ℚ)⌋,
         ⌊(0.1 : ℚ) * (totalSources narratives : ℚ)⌋] ∧
      ((fetchStatsPlatforms narratives).map Prod.snd).sum ≤
        (totalSources narratives : ℤ)) ∧
    ((fetchDashboardPlatforms narratives).map Prod.snd =
        [⌊(0.55 : ℚ) * (totalSources narratives : ℚ)⌋,
         ⌊(0.15 : ℚ) * (totalSources narratives : ℚ)⌋,
         ⌊(0.12 : ℚ) * (totalSources narratives : ℚ)⌋,
         ⌊(0.08 : ℚ) * (totalSources narratives : ℚ)⌋,
         ⌊(0.06 : ℚ) * (totalSources narratives : ℚ)⌋,
         ⌊(0.04 : ℚ) * (totalSources narratives : ℚ)⌋] ∧
      ((fetchDashboardPlatforms narratives).map Prod.snd).sum ≤
        (totalSources narratives : ℤ)) ∧
    (∀ narratives' : List Narrative,
      totalSources narratives = totalSources narratives' →
        fetchStatsPlatforms narratives = fetchStatsPlatforms narratives' ∧
        fetchDashboardPlatforms narratives = fetchDashboardPlatforms narratives') := by
  refine ⟨⟨?_, ?_⟩, ⟨?_, ?_⟩, ?_⟩
  · simp [fetchStatsPlatforms, mul_comm]
  · simp only [fetchStatsPlatforms, List.map_cons, List.map_nil, List.sum_cons,
      List.sum_nil, add_zero]
    have h1 := Int.floor_le ((totalSources narratives : ℚ) * 0.6)
    have h2 := Int.floor_le ((totalSources narratives : ℚ) * 0.3)
    have h3 := Int.floor_le ((totalSources narratives : ℚ) * 0.1)
    rw [← @Int.cast_le ℚ]
    push_cast
    nlinarith [h1, h2, h3]
  · simp [fetchDashboardPlatforms, mul_comm]
  · simp only [fetchDashboardPlatforms, List.map_cons, List.map_nil, List.sum_cons,
      List.sum_nil, add_zero]
    have h1 := Int.floor_le ((totalSources narratives : ℚ) * 0.55)
    have h2 := Int.floor_le ((totalSources narratives : ℚ) * 0.15)
    have h3 := Int.floor_le ((totalSources narratives : ℚ) * 0.12)
    have h4 := Int.floor_le ((totalSources narratives : ℚ) * 0.08)
    have h5 := Int.floor_le ((totalSources narratives : ℚ) * 0.06)
    have h6 := Int.floor_le ((totalSources narratives : ℚ) * 0.04)
    rw [← @Int.cast_le ℚ]
    push_cast
    nlinarith [h1, h2, h3, h4, h5, h6]
  · intro narratives' h
    constructor
    · simp [fetchStatsPlatforms, h]
    · simp [fetchDashboardPlatforms, h]

/-- Witness for C10: a concrete narrative list with total source count 7;
the theorem applies to it, and the determined-by-the-total implication is
discharged at a second list with the same total. -/
theorem platform_counts_witness :
    ((fetchStatsPlatforms
        [{ id := 1, summary := "a", source_count := 7, last_seen := 0,
           first_seen := 0 }]).map Prod.snd).sum ≤
      ((totalSources
        [{ id := 1, summary := "a", source_count := 7, last_seen := 0,
           first_seen := 0 }] : ℕ) : ℤ) ∧
    fetchStatsPlatforms
        [{ id := 1, summary := "a", source_count := 7, last_seen := 0,
           first_seen := 0 }] =
      fetchStatsPlatforms
        [{ id := 2, summary := "b", source_count := 3, last_seen := 1,
           first_seen := 1 },
         { id := 3, summary := "c", source_count := 4, last_seen := 2,
           first_seen := 2 }] :=
  ⟨(platform_counts_fixed_fractions _).1.2,
    ((platform_counts_fixed_fractions _).2.2 _ (by decide)).1⟩

/-! ### Claim C1: inclusive threshold boundary of assign -/

/-- C1: when the best similarity score is at least the threshold
(including exact equality) the item joins the best-matching cluster; when
it is strictly below the threshold the item seeds a fresh cluster with
`member_ids = {item.id}`, `centroid = item.embedding`,
`first_seen = last_seen = item.timestamp` and `source_count = 1`. -/
theorem assign_threshold_boundary (cfg : Config) (s : EngineState)
    (item : ContentItem) (emb : Embedding) (cid : ℕ) (score : ℚ)
    (hemb : item.embedding = some emb) (hdim : emb.length = cfg.dim)
    (hq : SimilarityIndex.queryNearest cfg.sim s.index emb = some (cid, score)) :
    (cfg.threshold ≤ score →
      ∃ s', assign cfg s item = .ok (cid, s') ∧
        ∃ c ∈ s'.clusters, c.id = cid ∧ item.id ∈ c.member_ids) ∧
    (score < cfg.threshold →
      assign cfg s item = .ok (s.nextId,
        { clusters := s.clusters ++
            [{ id := s.nextId, summary := none, member_ids := {item.id},
               centroid := emb, first_seen := item.timestamp,
               last_seen := item.timestamp, source_count := 1 }]
          nextId := s.nextId + 1 })) := by
  constructor
  · intro hle
    unfold assign
    rw [hemb]
    simp only [if_pos hdim, hq, if_pos hle]
    refine ⟨_, rfl, ?_⟩
    rcases queryNearest_mem hq with ⟨e, he, hid, -⟩
    rcases index_mem he with ⟨c, hc, hcid, -⟩
    refine ⟨joinItem c item emb, ?_, ?_, Finset.mem_insert_self _ _⟩
    · have : c.id = cid := hcid.trans hid
      exact List.mem_map.mpr ⟨c, hc, by rw [if_pos this]⟩
    · exact hcid.trans hid
  · intro hlt
    unfold assign
    rw [hemb]
    simp only [if_pos hdim, hq, if_neg (not_le.mpr hlt)]
    rfl

/-- A discrete similarity measure used for the concrete witnesses: two
embeddings score 1 when equal and 0 otherwise. -/
def discreteSim (a b : Embedding) : ℚ := if a == b then 1 else 0

/-- A witness configuration: dimension 2, threshold 1, discrete
similarity. -/
def cfgW : Config := { dim := 2, threshold := 1, sim := discreteSim }

/-- A witness cluster with centroid [1, 0]. -/
def clusterW : NarrativeCluster :=
  { id := 0, summary := none, member_ids := {7}, centroid := [1, 0],
    first_seen := 3, last_seen := 5, source_count := 1 }

/-- A witness engine state holding one cluster whose centroid is [1, 0]. -/
def stateW : EngineState := { clusters := [clusterW], nextId := 1 }

/-- An item scoring exactly the threshold against `stateW`'s cluster. -/
def itemAtThreshold : ContentItem :=
  { id := 8, platform := "news", text := "a", embedding := some [1, 0],
    timestamp := 6, url := "u", engagement := 0 }

/-- An item scoring strictly below the threshold against `stateW`'s
cluster. -/
def itemBelowThreshold : ContentItem :=
  { id := 9, platform := "news", text := "b", embedding := some [0, 1],
    timestamp := 7, url := "v", engagement := 0 }

/-- Witness for C1: an item whose best score equals the threshold joins
the existing cluster, and an item scoring below it seeds a new cluster. -/
theorem assign_threshold_boundary_witness :
    (∃ s', assign cfgW stateW itemAtThreshold = .ok (0, s') ∧
      ∃ c ∈ s'.clusters, c.id = 0 ∧ itemAtThreshold.id ∈ c.member_ids) ∧
    assign cfgW stateW itemBelowThreshold = .ok (stateW.nextId,
      { clusters := stateW.clusters ++
          [{ id := stateW.nextId, summary := none,
             member_ids := {itemBelowThreshold.id}, centroid := [0, 1],
             first_seen := itemBelowThreshold.timestamp,
             last_seen := itemBelowThreshold.timestamp, source_count := 1 }]
        nextId := stateW.nextId + 1 }) :=
  ⟨(assign_threshold_boundary cfgW stateW itemAtThreshold [1, 0] 0 1 rfl rfl rfl).1
      le_rfl,
   (assign_threshold_boundary cfgW stateW itemBelowThreshold [0, 1] 0 0 rfl rfl
      rfl).2 (by norm_num [cfgW])⟩

/-! ### Claim C6: invalid embeddings are rejected without mutation -/

/-- C6: an item whose embedding is missing or not of the configured
dimensionality makes `assign` fail with `InvalidEmbeddingError`, and every
failing `assign` or `mergeClusters` call performs no mutation — the state
after a failed call equals the state before it. -/
theorem assign_invalid_embedding_no_mutation (cfg : Config) (s : EngineState)
    (item : ContentItem)
    (hbad : item.embedding = none ∨
      ∀ emb : Embedding, item.embedding = some emb → emb.length ≠ cfg.dim) :
    assign cfg s item = .error .invalidEmbeddingError ∧
    (∀ (assigned : Finset ℕ) (e : ClusterError),
      assign cfg s item = .error e →
        stepOp cfg (s, assigned) (.assignItem item) = (s, assigned)) ∧
    (∀ (assigned : Finset ℕ) (a b : ℕ) (e : ClusterError),
      mergeClusters s a b = .error e →
        stepOp cfg (s, assigned) (.mergePair a b) = (s, assigned)) := by
  refine ⟨?_, ?_, ?_⟩
  · unfold assign
    rcases hme : item.embedding with _ | emb
    · rfl
    · rcases hbad with hnone | hlen
      · rw [hme] at hnone; exact absurd hnone (by simp)
      · simp only [if_neg (hlen emb hme)]
  · intro assigned e h
    simp [stepOp, h]
  · intro assigned a b e h
    simp [stepOp, h]

/-- A witness item with a missing embedding. -/
def itemNoEmbedding : ContentItem :=
  { id := 11, platform := "news", text := "x", embedding := none,
    timestamp := 1, url := "w", engagement := 0 }

/-- Witness for C6: the missing-embedding item is rejected with
`InvalidEmbeddingError` and the failing `assign` and a failing
`mergeClusters` (unknown ids) both leave the state unchanged. -/
theorem assign_invalid_embedding_witness :
    assign cfgW stateW itemNoEmbedding = .error .invalidEmbeddingError ∧
    stepOp cfgW (stateW, ∅) (.assignItem itemNoEmbedding) = (stateW, ∅) ∧
    stepOp cfgW (stateW, ∅) (.mergePair 5 6) = (stateW, ∅) :=
  ⟨(assign_invalid_embedding_no_mutation cfgW stateW itemNoEmbedding
      (Or.inl rfl)).1,
   (assign_invalid_embedding_no_mutation cfgW stateW itemNoEmbedding
      (Or.inl rfl)).2.1 ∅ _
     (assign_invalid_embedding_no_mutation cfgW stateW itemNoEmbedding
       (Or.inl rfl)).1,
   (assign_invalid_embedding_no_mutation cfgW stateW itemNoEmbedding
      (Or.inl rfl)).2.2 ∅ 5 6 .clusterNotFoundError rfl⟩

/-! ### Claim C3: the bounds invariant is preserved by every mutation -/

theorem mergedCluster_bounds {x y : NarrativeCluster} (hx : x.first_seen ≤ x.last_seen) :
    (mergedCluster x y).first_seen ≤ (mergedCluster x y).last_seen := by
  simp only [mergedCluster]
  exact le_trans (min_le_left _ _) (le_trans hx (le_max_left _ _))

theorem boundsInv_assign_ok {cfg : Config} {s : EngineState}
    {item : ContentItem} {cid : ℕ} {s' : EngineState} (hInv : boundsInv s)
    (h : assign cfg s item = .ok (cid, s')) : boundsInv s' := by
  unfold assign at h
  rcases hme : item.embedding with _ | emb
  · rw [hme] at h; simp at h
  simp only [hme] at h
  by_cases hdim : emb.length = cfg.dim
  · rw [if_pos hdim] at h
    rcases hq : SimilarityIndex.queryNearest cfg.sim s.index emb with _ | ⟨cid', score⟩
    · simp only [hq, Except.ok.injEq, Prod.mk.injEq] at h
      rcases h with ⟨-, hs'⟩
      subst hs'
      intro c hc
      rcases List.mem_append.mp hc with hc | hc
      · exact hInv c hc
      · rw [List.mem_singleton.mp hc]
        simp [freshCluster]
    · simp only [hq] at h
      by_cases hth : cfg.threshold ≤ score
      · rw [if_pos hth] at h
        simp only [Except.ok.injEq, Prod.mk.injEq] at h
        rcases h with ⟨-, hs'⟩
        subst hs'
        intro c hc
        rcases List.mem_map.mp hc with ⟨c0, hc0, rfl⟩
        split
        · simp only [joinItem]
          exact le_trans (min_le_right _ _) (le_max_right _ _)
        · exact hInv c0 hc0
      · rw [if_neg hth] at h
        simp only [Except.ok.injEq, Prod.mk.injEq] at h
        rcases h with ⟨-, hs'⟩
        subst hs'
        intro c hc
        rcases List.mem_append.mp hc with hc | hc
        · exact hInv c hc
        · rw [List.mem_singleton.mp hc]
          simp [freshCluster]
  · rw [if_neg hdim] at h; simp at h

theorem boundsInv_merge_ok {s : EngineState} {a b : ℕ} {s' : EngineState}
    (hInv : boundsInv s) (h : mergeClusters s a b = .ok s') : boundsInv s' := by
  unfold mergeClusters at h
  rcases hfa : s.clusters.find? (fun c => c.id == a) with _ | ca
  · rw [hfa] at h; simp at h
  rcases hfb : s.clusters.find? (fun c => c.id == b) with _ | cb
  · rw [hfa, hfb] at h; simp at h
  simp only [hfa, hfb] at h
  have hca : ca ∈ s.clusters := List.mem_of_find?_eq_some hfa
  have hcb : cb ∈ s.clusters := List.mem_of_find?_eq_some hfb
  by_cases hab : a = b
  · rw [if_pos hab] at h
    simp only [Except.ok.injEq] at h
    subst h
    exact hInv
  · rw [if_neg hab] at h
    simp only [Except.ok.injEq] at h
    subst h
    intro c hc
    rcases List.mem_map.mp hc with ⟨c0, hc0, rfl⟩
    have hc0' : c0 ∈ s.clusters := List.mem_of_mem_filter hc0
    by_cases hle : a ≤ b
    · simp only [if_pos hle]
      split
      · exact mergedCluster_bounds (hInv ca hca)
      · exact hInv c0 hc0'
    · simp only [if_neg hle]
      split
      · exact mergedCluster_bounds (hInv cb hcb)
      · exact hInv c0 hc0'


theorem boundsInv_run (cfg : Config) (ops : List EngineOp) :
    boundsInv (runOps cfg ops).1 := by
  have hgen : ∀ (p : EngineState × Finset ℕ), boundsInv p.1 →
      boundsInv (ops.foldl (stepOp cfg) p).1 := by
    induction ops with
    | nil => intro p hp; exact hp
    | cons op ops ih =>
      intro p hp
      rw [List.foldl_cons]
      refine ih _ ?_
      rcases op with item | ⟨a, b⟩
      · rcases hstep : assign cfg p.1 item with e | q
        · have heq : stepOp cfg p (.assignItem item) = p := by
            simp [stepOp, hstep]
          rw [heq]; exact hp
        · have heq : stepOp cfg p (.assignItem item)
              = (q.2, insert item.id p.2) := by
            simp [stepOp, hstep]
          rw [heq]
          exact boundsInv_assign_ok hp (by rw [hstep])
      · rcases hstep : mergeClusters p.1 a b with e | s2
        · have heq : stepOp cfg p (.mergePair a b) = p := by
            simp [stepOp, hstep]
          rw [heq]; exact hp
        · have heq : stepOp cfg p (.mergePair a b) = (s2, p.2) := by
            simp [stepOp, hstep]
          rw [heq]
          exact boundsInv_merge_ok hp hstep
  exact hgen (EngineState.empty, ∅) (by intro c hc; simp [EngineState.empty] at hc)

/-- C3: every state-mutating operation of the Clustering Engine — an
assign that joins a cluster, an assign that creates one, and every merge —
preserves the invariant `first_seen <= last_seen` of every cluster, and
consequently the invariant holds in every state reachable from the empty
state. -/
theorem bounds_invariant_preserved (cfg : Config) (s : EngineState)
    (item : ContentItem) (a b : ℕ) (hInv : boundsInv s) :
    (∀ (cid : ℕ) (s' : EngineState),
      assign cfg s item = .ok (cid, s') → boundsInv s') ∧
    (∀ s' : EngineState, mergeClusters s a b = .ok s' → boundsInv s') ∧
    (∀ ops : List EngineOp, boundsInv (runOps cfg ops).1) :=
  ⟨fun _ _ h => boundsInv_assign_ok hInv h,
   fun _ h => boundsInv_merge_ok hInv h,
   fun ops => boundsInv_run cfg ops⟩

/-- A second witness cluster, disjoint from `clusterW`. -/
def clusterW2 : NarrativeCluster :=
  { id := 1, summary := none, member_ids := {9}, centroid := [0, 1],
    first_seen := 4, last_seen := 8, source_count := 1 }

/-- A witness state holding two clusters, used to exercise merging. -/
def twoClusterState : EngineState := { clusters := [clusterW, clusterW2], nextId := 2 }

/-- Witness for C3: the state after the boundary item joins `stateW`'s
cluster satisfies the bounds invariant, and so does the state after
merging the two clusters of `twoClusterState`. -/
theorem bounds_invariant_witness :
    boundsInv { clusters := [joinItem clusterW itemAtThreshold [1, 0]], nextId := 1 } ∧
    boundsInv { clusters := [mergedCluster clusterW clusterW2], nextId := 2 } :=
  ⟨(bounds_invariant_preserved cfgW stateW itemAtThreshold 0 1
      (by unfold boundsInv; decide)).1 0
      { clusters := [joinItem clusterW itemAtThreshold [1, 0]], nextId := 1 } rfl,
   (bounds_invariant_preserved cfgW twoClusterState itemAtThreshold 0 1
      (by unfold boundsInv; decide)).2.1
      { clusters := [mergedCluster clusterW clusterW2], nextId := 2 } rfl⟩

/-! ### Claim C2: merge correctness -/

theorem nodup_ids_inj {l : List NarrativeCluster}
    (hnodup : (l.map NarrativeCluster.id).Nodup) {c d : NarrativeCluster}
    (hc : c ∈ l) (hd : d ∈ l) (h : c.id = d.id) : c = d :=
  List.inj_on_of_nodup_map hnodup hc hd h

theorem filter_partition_length (l : List NarrativeCluster) (r : ℕ) :
    (l.filter (fun d => d.id != r)).length +
      (l.filter (fun d => d.id == r)).length = l.length := by
  induction l with
  | nil => rfl
  | cons x xs ih =>
    by_cases hx : x.id = r
    · have h1 : (x.id != r) = false := by simp [hx]
      have h2 : (x.id == r) = true := by simp [hx]
      simp [List.filter_cons, h1, h2]
      omega
    · have h1 : (x.id != r) = true := by simp [hx]
      have h2 : (x.id == r) = false := by simp [hx]
      simp [List.filter_cons, h1, h2]
      omega

theorem filter_ne_id_length {l : List NarrativeCluster} {r : ℕ}
    (hnodup : (l.map NarrativeCluster.id).Nodup) {c : NarrativeCluster}
    (hc : c ∈ l) (hid : c.id = r) :
    (l.filter (fun d => d.id != r)).length + 1 = l.length := by
  have h2 : (l.filter (fun d => d.id == r)).length = 1 := by
    have hmem : r ∈ l.map NarrativeCluster.id := List.mem_map.mpr ⟨c, hc, hid⟩
    have hcount : (l.map NarrativeCluster.id).count r = 1 :=
      List.count_eq_one_of_mem hnodup hmem
    have hc1 : (l.map NarrativeCluster.id).count r
        = l.countP (fun d => d.id == r) := by
      show (l.map NarrativeCluster.id).countP (fun x => x == r) = _
      rw [List.countP_map]
      rfl
    rw [← List.countP_eq_length_filter, ← hc1, hcount]
  have h5 := filter_partition_length l r
  omega

/-- C2: merging two existing clusters produces one surviving cluster (the
cluster count drops by one) whose `member_ids` is the union of the two
member sets, whose `first_seen` is the minimum of the two `first_seen`
values, and whose `last_seen` is the maximum of the two `last_seen`
values. -/
theorem mergeClusters_correct (s : EngineState) (a b : ℕ)
    (ca cb : NarrativeCluster)
    (hnodup : (s.clusters.map NarrativeCluster.id).Nodup)
    (hca : ca ∈ s.clusters) (hcb : cb ∈ s.clusters)
    (hia : ca.id = a) (hib : cb.id = b) (hab : a ≠ b) :
    ∃ s', mergeClusters s a b = .ok s' ∧
      s'.clusters.length + 1 = s.clusters.length ∧
      ∃ c ∈ s'.clusters,
        c.member_ids = ca.member_ids ∪ cb.member_ids ∧
        c.first_seen = min ca.first_seen cb.first_seen ∧
        c.last_seen = max ca.last_seen cb.last_seen := by
  have hpa : (fun c : NarrativeCluster => c.id == a) ca := by simp [hia]
  have hpb : (fun c : NarrativeCluster => c.id == b) cb := by simp [hib]
  have hfa : s.clusters.find? (fun c => c.id == a) = some ca := by
    rcases hf : s.clusters.find? (fun c => c.id == a) with _ | x
    · exact absurd hpa (by simpa using List.find?_eq_none.mp hf ca hca)
    · have hx : x ∈ s.clusters := List.mem_of_find?_eq_some hf
      have hxa : x.id = a := by simpa using List.find?_some hf
      have hxc : x = ca := nodup_ids_inj hnodup hx hca (hxa.trans hia.symm)
      rw [← hxc]
      exact hf
  have hfb : s.clusters.find? (fun c => c.id == b) = some cb := by
    rcases hf : s.clusters.find? (fun c => c.id == b) with _ | x
    · exact absurd hpb (by simpa using List.find?_eq_none.mp hf cb hcb)
    · have hx : x ∈ s.clusters := List.mem_of_find?_eq_some hf
      have hxb : x.id = b := by simpa using List.find?_some hf
      have hxc : x = cb := nodup_ids_inj hnodup hx hcb (hxb.trans hib.symm)
      rw [← hxc]
      exact hf
  unfold mergeClusters
  simp only [hfa, hfb, if_neg hab]
  refine ⟨_, rfl, ?_, ?_⟩
  · rw [List.length_map]
    by_cases hle : a ≤ b
    · simp only [if_pos hle]
      exact filter_ne_id_length hnodup hcb rfl
    · simp only [if_neg hle]
      exact filter_ne_id_length hnodup hca rfl
  · by_cases hle : a ≤ b
    · simp only [if_pos hle]
      refine ⟨mergedCluster ca cb, ?_, rfl, rfl, rfl⟩
      refine List.mem_map.mpr ⟨ca, ?_, if_pos rfl⟩
      refine List.mem_filter.mpr ⟨hca, ?_⟩
      simp [hia, hib, hab]
    · simp only [if_neg hle]
      refine ⟨mergedCluster cb ca, ?_, ?_, ?_, ?_⟩
      · refine List.mem_map.mpr ⟨cb, ?_, if_pos rfl⟩
        refine List.mem_filter.mpr ⟨hcb, ?_⟩
        simp [hia, hib]
        exact fun hys => absurd hys.symm hab
      · exact Finset.union_comm _ _
      · exact min_comm _ _
      · exact max_comm _ _

/-- The claim's concrete merge example: clusters with member sets {1, 2}
and {3, 4} and first_seen/last_seen bounds (3, 5) and (4, 8). -/
def clusterM1 : NarrativeCluster :=
  { id := 0, summary := none, member_ids := {1, 2}, centroid := [1, 0],
    first_seen := 3, last_seen := 5, source_count := 2 }

def clusterM2 : NarrativeCluster :=
  { id := 1, summary := none, member_ids := {3, 4}, centroid := [0, 1],
    first_seen := 4, last_seen := 8, source_count := 2 }

def mergeExampleState : EngineState :=
  { clusters := [clusterM1, clusterM2], nextId := 2 }

/-- Witness for C2: merging clusters with member sets {1, 2} and {3, 4}
and bounds (3, 5) and (4, 8) yields one surviving cluster with member set
{1, 2, 3, 4}, first_seen min 3 and last_seen max 8. -/
theorem mergeClusters_correct_witness :
    (∃ s', mergeClusters mergeExampleState 0 1 = .ok s' ∧
      s'.clusters.length + 1 = mergeExampleState.clusters.length ∧
      ∃ c ∈ s'.clusters,
        c.member_ids = clusterM1.member_ids ∪ clusterM2.member_ids ∧
        c.first_seen = min clusterM1.first_seen clusterM2.first_seen ∧
        c.last_seen = max clusterM1.last_seen clusterM2.last_seen) ∧
    clusterM1.member_ids ∪ clusterM2.member_ids = {1, 2, 3, 4} ∧
    min clusterM1.first_seen clusterM2.first_seen = 3 ∧
    max clusterM1.last_seen clusterM2.last_seen = 8 :=
  ⟨mergeClusters_correct mergeExampleState 0 1 clusterM1 clusterM2 (by decide)
      (by simp [mergeExampleState]) (by simp [mergeExampleState]) rfl rfl
      (by decide),
   by decide, by decide, by decide⟩

/-! ### Claim C4: single ownership of item ids -/

theorem ownershipInv_create {s : EngineState} {assigned : Finset ℕ}
    {item : ContentItem} {emb : Embedding}
    (hInv : ownershipInv s assigned) (hfresh : item.id ∉ assigned) :
    ownershipInv
      { clusters := s.clusters ++ [freshCluster s.nextId item emb]
        nextId := s.nextId + 1 } (insert item.id assigned) := by
  rcases hInv with ⟨hn, hd, hm, hb⟩
  have hnotin : ∀ c ∈ s.clusters, item.id ∉ c.member_ids := by
    intro c hc hic
    exact hfresh ((hm item.id).mpr ⟨c, hc, hic⟩)
  refine ⟨?_, ?_, ?_, ?_⟩
  · rw [List.map_append]
    refine List.nodup_append.mpr ⟨hn, List.nodup_singleton _, ?_⟩
    intro x hx hx'
    rcases List.mem_map.mp hx with ⟨c, hc, rfl⟩
    have hfid : (freshCluster s.nextId item emb).id = s.nextId := rfl
    simp only [List.map_cons, List.map_nil, List.mem_singleton, hfid] at hx'
    have := hb c hc
    omega
  · intro c' hc' d' hd' hne
    rcases List.mem_append.mp hc' with hc0 | hc1 <;>
      rcases List.mem_append.mp hd' with hd0 | hd1
    · exact hd c' hc0 d' hd0 hne
    · rw [List.mem_singleton.mp hd1]
      exact Finset.disjoint_singleton_right.mpr (hnotin c' hc0)
    · rw [List.mem_singleton.mp hc1]
      exact Finset.disjoint_singleton_left.mpr (hnotin d' hd0)
    · exact absurd ((List.mem_singleton.mp hc1).trans
        (List.mem_singleton.mp hd1).symm) hne
  · intro i
    constructor
    · intro hi
      rcases Finset.mem_insert.mp hi with rfl | hi
      · exact ⟨freshCluster s.nextId item emb,
          List.mem_append.mpr (Or.inr (List.mem_singleton_self _)),
          Finset.mem_singleton_self _⟩
      · rcases (hm i).mp hi with ⟨c, hc, hic⟩
        exact ⟨c, List.mem_append.mpr (Or.inl hc), hic⟩
    · rintro ⟨c, hc, hic⟩
      rcases List.mem_append.mp hc with hc0 | hc1
      · exact Finset.mem_insert_of_mem ((hm i).mpr ⟨c, hc0, hic⟩)
      · rw [List.mem_singleton.mp hc1] at hic
        have : i = item.id := Finset.mem_singleton.mp hic
        rw [this]
        exact Finset.mem_insert_self _ _
  · intro c hc
    rcases List.mem_append.mp hc with hc0 | hc1
    · exact Nat.lt_succ_of_lt (hb c hc0)
    · rw [List.mem_singleton.mp hc1]
      exact Nat.lt_succ_self _

theorem ownershipInv_join {s : EngineState} {assigned : Finset ℕ}
    {item : ContentItem} {emb : Embedding} {cid : ℕ}
    (hInv : ownershipInv s assigned) (hfresh : item.id ∉ assigned)
    (hex : ∃ c ∈ s.clusters, c.id = cid) :
    ownershipInv
      { s with clusters :=
          s.clusters.map (fun c => if c.id = cid then joinItem c item emb else c) }
      (insert item.id assigned) := by
  rcases hInv with ⟨hn, hd, hm, hb⟩
  have hidf : ∀ c : NarrativeCluster,
      (if c.id = cid then joinItem c item emb else c).id = c.id := by
    intro c
    split
    · rfl
    · rfl
  have hnotin : ∀ c ∈ s.clusters, item.id ∉ c.member_ids := by
    intro c hc hic
    exact hfresh ((hm item.id).mpr ⟨c, hc, hic⟩)
  refine ⟨?_, ?_, ?_, ?_⟩
  · have heq : ((s.clusters.map
        (fun c => if c.id = cid then joinItem c item emb else c)).map
        NarrativeCluster.id) = s.clusters.map NarrativeCluster.id := by
      rw [List.map_map]
      exact List.map_congr_left (fun c _ => hidf c)
    rw [heq]
    exact hn
  · intro c' hc' d' hd' hne
    rcases List.mem_map.mp hc' with ⟨c0, hc0, rfl⟩
    rcases List.mem_map.mp hd' with ⟨d0, hd0, rfl⟩
    have hc0d0 : c0 ≠ d0 := fun hh => hne (by rw [hh])
    have hdisj0 : Disjoint c0.member_ids d0.member_ids := hd c0 hc0 d0 hd0 hc0d0
    by_cases h1 : c0.id = cid <;> by_cases h2 : d0.id = cid
    · exact absurd (nodup_ids_inj hn hc0 hd0 (h1.trans h2.symm)) hc0d0
    · rw [if_pos h1, if_neg h2]
      exact Finset.disjoint_insert_left.mpr ⟨hnotin d0 hd0, hdisj0⟩
    · rw [if_neg h1, if_pos h2]
      exact Finset.disjoint_insert_right.mpr ⟨hnotin c0 hc0, hdisj0⟩
    · rw [if_neg h1, if_neg h2]
      exact hdisj0
  · intro i
    constructor
    · intro hi
      rcases Finset.mem_insert.mp hi with rfl | hi
      · rcases hex with ⟨c0, hc0, hcid⟩
        exact ⟨joinItem c0 item emb,
          List.mem_map.mpr ⟨c0, hc0, by rw [if_pos hcid]⟩,
          Finset.mem_insert_self _ _⟩
      · rcases (hm i).mp hi with ⟨c0, hc0, hic⟩
        by_cases h1 : c0.id = cid
        · exact ⟨joinItem c0 item emb,
            List.mem_map.mpr ⟨c0, hc0, by rw [if_pos h1]⟩,
            Finset.mem_insert_of_mem hic⟩
        · exact ⟨c0, List.mem_map.mpr ⟨c0, hc0, by rw [if_neg h1]⟩, hic⟩
    · rintro ⟨c', hc', hic⟩
      rcases List.mem_map.mp hc' with ⟨c0, hc0, rfl⟩
      by_cases h1 : c0.id = cid
      · rw [if_pos h1] at hic
        rcases Finset.mem_insert.mp hic with rfl | hic
        · exact Finset.mem_insert_self _ _
        · exact Finset.mem_insert_of_mem ((hm i).mpr ⟨c0, hc0, hic⟩)
      · rw [if_neg h1] at hic
        exact Finset.mem_insert_of_mem ((hm i).mpr ⟨c0, hc0, hic⟩)
  · intro c' hc'
    rcases List.mem_map.mp hc' with ⟨c0, hc0, rfl⟩
    rw [hidf c0]
    exact hb c0 hc0

theorem ownershipInv_merge_core {s : EngineState} {assigned : Finset ℕ}
    {sv rt : NarrativeCluster}
    (hInv : ownershipInv s assigned)
    (hsv : sv ∈ s.clusters) (hrt : rt ∈ s.clusters) (hne : sv.id ≠ rt.id) :
    ownershipInv
      { s with clusters :=
          ((s.clusters.filter (fun c => c.id != rt.id)).map
            (fun c => if c.id = sv.id then mergedCluster sv rt else c)) }
      assigned := by
  rcases hInv with ⟨hn, hd, hm, hb⟩
  have hidf : ∀ c : NarrativeCluster,
      (if c.id = sv.id then mergedCluster sv rt else c).id = c.id := by
    intro c
    split
    · rename_i hcc
      exact hcc.symm
    · rfl
  have hkept_sub : ∀ c ∈ s.clusters.filter (fun c => c.id != rt.id),
      c ∈ s.clusters := fun c hc => List.mem_of_mem_filter hc
  have hkept_ne : ∀ c ∈ s.clusters.filter (fun c => c.id != rt.id),
      c.id ≠ rt.id := by
    intro c hc
    have := (List.mem_filter.mp hc).2
    simpa using this
  have hsvkept : sv ∈ s.clusters.filter (fun c => c.id != rt.id) :=
    List.mem_filter.mpr ⟨hsv, by simpa using hne⟩
  refine ⟨?_, ?_, ?_, ?_⟩
  · have heq : (((s.clusters.filter (fun c => c.id != rt.id)).map
        (fun c => if c.id = sv.id then mergedCluster sv rt else c)).map
        NarrativeCluster.id)
        = (s.clusters.filter (fun c => c.id != rt.id)).map NarrativeCluster.id := by
      rw [List.map_map]
      exact List.map_congr_left (fun c _ => hidf c)
    rw [heq]
    exact hn.sublist ((List.filter_sublist _).map _)
  · intro c' hc' d' hd' hnecd
    rcases List.mem_map.mp hc' with ⟨c0, hc0, rfl⟩
    rcases List.mem_map.mp hd' with ⟨d0, hd0, rfl⟩
    have hc0d0 : c0 ≠ d0 := fun hh => hnecd (by rw [hh])
    have hc0m : c0 ∈ s.clusters := hkept_sub c0 hc0
    have hd0m : d0 ∈ s.clusters := hkept_sub d0 hd0
    by_cases h1 : c0.id = sv.id <;> by_cases h2 : d0.id = sv.id
    · exact absurd (nodup_ids_inj hn hc0m hd0m (h1.trans h2.symm)) hc0d0
    · rw [if_pos h1, if_neg h2]
      have hdsv : sv ≠ d0 := fun hh => h2 (by rw [← hh])
      have hdrt : rt ≠ d0 := fun hh => (hkept_ne d0 hd0) (by rw [← hh])
      exact Finset.disjoint_union_left.mpr
        ⟨hd sv hsv d0 hd0m hdsv, hd rt hrt d0 hd0m hdrt⟩
    · rw [if_neg h1, if_pos h2]
      have hcsv : sv ≠ c0 := fun hh => h1 (by rw [← hh])
      have hcrt : rt ≠ c0 := fun hh => (hkept_ne c0 hc0) (by rw [← hh])
      exact Finset.disjoint_union_right.mpr
        ⟨hd c0 hc0m sv hsv (fun hh => hcsv hh.symm),
         hd c0 hc0m rt hrt (fun hh => hcrt hh.symm)⟩
    · rw [if_neg h1, if_neg h2]
      exact hd c0 hc0m d0 hd0m hc0d0
  · intro i
    constructor
    · intro hi
      rcases (hm i).mp hi with ⟨c0, hc0, hic⟩
      by_cases h1 : c0.id = sv.id
      · have hcsv : c0 = sv := nodup_ids_inj hn hc0 hsv h1
        subst hcsv
        exact ⟨mergedCluster c0 rt,
          List.mem_map.mpr ⟨c0, hsvkept, by rw [if_pos rfl]⟩,
          Finset.mem_union_left _ hic⟩
      · by_cases h2 : c0.id = rt.id
        · have hcrt : c0 = rt := nodup_ids_inj hn hc0 hrt h2
          subst hcrt
          exact ⟨mergedCluster sv c0,
            List.mem_map.mpr ⟨sv, hsvkept, by rw [if_pos rfl]⟩,
            Finset.mem_union_right _ hic⟩
        · refine ⟨c0, ?_, hic⟩
          refine List.mem_map.mpr ⟨c0, ?_, by rw [if_neg h1]⟩
          exact List.mem_filter.mpr ⟨hc0, by simpa using h2⟩
    · rintro ⟨c', hc', hic⟩
      rcases List.mem_map.mp hc' with ⟨c0, hc0, rfl⟩
      by_cases h1 : c0.id = sv.id
      · rw [if_pos h1] at hic
        rcases Finset.mem_union.mp hic with hic | hic
        · exact (hm i).mpr ⟨sv, hsv, hic⟩
        · exact (hm i).mpr ⟨rt, hrt, hic⟩
      · rw [if_neg h1] at hic
        exact (hm i).mpr ⟨c0, hkept_sub c0 hc0, hic⟩
  · intro c' hc'
    rcases List.mem_map.mp hc' with ⟨c0, hc0, rfl⟩
    rw [hidf c0]
    exact hb c0 (hkept_sub c0 hc0)

theorem ownershipInv_merge {s : EngineState} {assigned : Finset ℕ} {a b : ℕ}
    {s' : EngineState} (hInv : ownershipInv s assigned)
    (h : mergeClusters s a b = .ok s') : ownershipInv s' assigned := by
  unfold mergeClusters at h
  rcases hfa : s.clusters.find? (fun c => c.id == a) with _ | ca
  · rw [hfa] at h; simp at h
  rcases hfb : s.clusters.find? (fun c => c.id == b) with _ | cb
  · rw [hfa, hfb] at h; simp at h
  simp only [hfa, hfb] at h
  have hca : ca ∈ s.clusters := List.mem_of_find?_eq_some hfa
  have hcb : cb ∈ s.clusters := List.mem_of_find?_eq_some hfb
  have hia : ca.id = a := by simpa using List.find?_some hfa
  have hib : cb.id = b := by simpa using List.find?_some hfb
  by_cases hab : a = b
  · rw [if_pos hab] at h
    simp only [Except.ok.injEq] at h
    subst h
    exact hInv
  · rw [if_neg hab] at h
    simp only [Except.ok.injEq] at h
    subst h
    by_cases hle : a ≤ b
    · simp only [if_pos hle]
      exact ownershipInv_merge_core hInv hca hcb (by rw [hia, hib]; exact hab)
    · simp only [if_neg hle]
      exact ownershipInv_merge_core hInv hcb hca
        (by rw [hia, hib]; exact fun hh => hab hh.symm)

theorem ownershipInv_assign {cfg : Config} {s : EngineState} {assigned : Finset ℕ}
    {item : ContentItem} {cid : ℕ} {s' : EngineState}
    (hInv : ownershipInv s assigned) (hfresh : item.id ∉ assigned)
    (h : assign cfg s item = .ok (cid, s')) :
    ownershipInv s' (insert item.id assigned) := by
  unfold assign at h
  rcases hme : item.embedding with _ | emb
  · rw [hme] at h; simp at h
  simp only [hme] at h
  by_cases hdim : emb.length = cfg.dim
  · rw [if_pos hdim] at h
    rcases hq : SimilarityIndex.queryNearest cfg.sim s.index emb with _ | ⟨cid', score⟩
    · simp only [hq, Except.ok.injEq, Prod.mk.injEq] at h
      rcases h with ⟨-, hs'⟩
      subst hs'
      exact ownershipInv_create hInv hfresh
    · simp only [hq] at h
      by_cases hth : cfg.threshold ≤ score
      · rw [if_pos hth] at h
        simp only [Except.ok.injEq, Prod.mk.injEq] at h
        rcases h with ⟨-, hs'⟩
        subst hs'
        refine ownershipInv_join hInv hfresh ?_
        rcases queryNearest_mem hq with ⟨e, he, hid, -⟩
        rcases index_mem he with ⟨c, hc, hcid, -⟩
        exact ⟨c, hc, hcid.trans hid⟩
      · rw [if_neg hth] at h
        simp only [Except.ok.injEq, Prod.mk.injEq] at h
        rcases h with ⟨-, hs'⟩
        subst hs'
        exact ownershipInv_create hInv hfresh
  · rw [if_neg hdim] at h; simp at h

theorem ownershipInv_foldl (cfg : Config) (ops : List EngineOp) :
    ∀ (s : EngineState) (assigned : Finset ℕ),
      ownershipInv s assigned →
      (assignIds ops).Nodup →
      (∀ i ∈ assignIds ops, i ∉ assigned) →
      ownershipInv (ops.foldl (stepOp cfg) (s, assigned)).1
        (ops.foldl (stepOp cfg) (s, assigned)).2 := by
  induction ops with
  | nil => intro s assigned hInv _ _; exact hInv
  | cons op ops ih =>
    intro s assigned hInv hnodup hdisj
    rw [List.foldl_cons]
    rcases op with item | ⟨a, b⟩
    · have hids : assignIds (EngineOp.assignItem item :: ops)
          = item.id :: assignIds ops := rfl
      rw [hids] at hnodup hdisj
      have hfresh : item.id ∉ assigned := hdisj item.id (List.mem_cons_self _ _)
      have hnd := List.nodup_cons.mp hnodup
      rcases hstep : assign cfg s item with e | q
      · have heq : stepOp cfg (s, assigned) (.assignItem item) = (s, assigned) := by
          simp [stepOp, hstep]
        rw [heq]
        exact ih s assigned hInv hnd.2
          (fun i hi => hdisj i (List.mem_cons_of_mem _ hi))
      · have heq : stepOp cfg (s, assigned) (.assignItem item)
            = (q.2, insert item.id assigned) := by
          simp [stepOp, hstep]
        rw [heq]
        refine ih q.2 (insert item.id assigned) ?_ hnd.2 ?_
        · exact ownershipInv_assign hInv hfresh
            (by rw [hstep])
        · intro i hi
          rw [Finset.mem_insert]
          push_neg
          exact ⟨fun hii => hnd.1 (hii ▸ hi),
            hdisj i (List.mem_cons_of_mem _ hi)⟩
    · have hids : assignIds (EngineOp.mergePair a b :: ops) = assignIds ops := rfl
      rw [hids] at hnodup hdisj
      rcases hstep : mergeClusters s a b with e | s2
      · have heq : stepOp cfg (s, assigned) (.mergePair a b) = (s, assigned) := by
          simp [stepOp, hstep]
        rw [heq]
        exact ih s assigned hInv hnodup hdisj
      · have heq : stepOp cfg (s, assigned) (.mergePair a b) = (s2, assigned) := by
          simp [stepOp, hstep]
        rw [heq]
        exact ih s2 assigned (ownershipInv_merge hInv hstep) hnodup hdisj

/-- C4: in every state reachable by a sequence of assign and merge
operations from the empty clustering state (with the spec's unique item
ids), every successfully assigned ContentItem id lies in the `member_ids`
set of exactly one cluster — never two, never none. -/
theorem single_ownership (cfg : Config) (ops : List EngineOp)
    (hnodup : (assignIds ops).Nodup) :
    ∀ i ∈ (runOps cfg ops).2,
      ∃! c, c ∈ (runOps cfg ops).1.clusters ∧ i ∈ c.member_ids := by
  have hInv : ownershipInv (runOps cfg ops).1 (runOps cfg ops).2 := by
    have hbase : ownershipInv EngineState.empty ∅ := by
      refine ⟨by simp [EngineState.empty], by simp [EngineState.empty],
        by simp [EngineState.empty], by simp [EngineState.empty]⟩
    exact ownershipInv_foldl cfg ops EngineState.empty ∅ hbase hnodup (by simp)
  rcases hInv with ⟨-, hd, hm, -⟩
  intro i hi
  rcases (hm i).mp hi with ⟨c, hc, hic⟩
  refine ⟨c, ⟨hc, hic⟩, ?_⟩
  rintro d ⟨hdmem, hid⟩
  by_contra hne
  exact (Finset.disjoint_left.mp (hd d hdmem c hc hne) hid) hic

/-- Items with pairwise-distinct ids and embeddings, plus a final merge,
exercising `single_ownership`. -/
def itemB : ContentItem :=
  { id := 2, platform := "reddit", text := "d", embedding := some [0, 1],
    timestamp := 20, url := "x", engagement := 0 }

def itemC : ContentItem :=
  { id := 3, platform := "news", text := "e", embedding := some [1, 1],
    timestamp := 15, url := "y", engagement := 0 }

def opsSequenceW : List EngineOp :=
  [.assignItem itemAtThreshold, .assignItem itemB, .assignItem itemC,
   .mergePair 0 1]

/-- Witness for C4: after three assigns and one merge from the empty
state, item id 2 lies in exactly one cluster's member set. -/
theorem single_ownership_witness :
    ∃! c, c ∈ (runOps cfgW opsSequenceW).1.clusters ∧ 2 ∈ c.member_ids :=
  single_ownership cfgW opsSequenceW (by decide) 2 (by decide)

end Debunker
